import Mathlib

/-!
Verification development for the `zsu` streaming pipeline
(`zsu/iterator.py`): a shallow embedding in Lean 4 of the chunked
DataFrame reader, the line projector, the DataFrame sinks, the generic
buffered object writer and the line-reassembly buffer, together with
theorems settling the specified properties of each component.

Conventions of the embedding:
* a pandas `DataFrame` is modelled as a list of column names plus a list
  of rows, each row carrying its integer index label and its cell values;
* Python exceptions are modelled with `Except` / an explicit error value;
* stateful objects are modelled as explicit state records, each method as
  a state-passing function translated line by line from the source.
-/

namespace Zsu

/-- Python exceptions that the modelled code paths can raise. -/
inductive PyErr where
  | runtimeError
  | valueError
  | attributeError
  | stopIteration
deriving DecidableEq, Repr

/-! ## DataframeReader.slice_generator

Source (`iterator.py`):
```
for i in range(0, length, n):
    yield slice(i, min(i + n, length))
```
A slice is modelled as the half-open pair `(start, stop)`.  Python's
`range` with step `n = 0` raises `ValueError`; the model returns `[]`
in that (never-exercised) case so that the recursion is total. -/

def sliceGenGo (length n i : Nat) : List (Nat × Nat) :=
  if _h : 0 < n ∧ i < length then
    (i, min (i + n) length) :: sliceGenGo length n (i + n)
  else
    []
  termination_by length - i
  decreasing_by omega

/-- `DataframeReader.slice_generator(length, n)`, materialized as the list
of all yielded slices. -/
def slice_generator (length n : Nat) : List (Nat × Nat) :=
  sliceGenGo length n 0

/-- The half-open range `[a, b)` denoted by a slice, as the list of its
member indices. -/
def sliceElems (r : Nat × Nat) : List Nat :=
  List.range' r.1 (r.2 - r.1)

theorem sliceGenGo_flatten (length n : Nat) (hn : 0 < n) :
    ∀ i, ((sliceGenGo length n i).map sliceElems).flatten =
      List.range' i (length - i) := by
  intro i
  induction i using sliceGenGo.induct length n with
  | case2 i hcond =>
    rw [sliceGenGo]
    simp only [dif_neg hcond]
    have : length - i = 0 := by omega
    simp [this]
  | case1 i hcond ih =>
    rw [sliceGenGo]
    simp only [dif_pos hcond, List.map_cons, List.flatten_cons, ih]
    unfold sliceElems
    have hstep : length - (i + n) + (min (i + n) length - i) = length - i := by
      omega
    have harith : i + (min (i + n) length - i) = min (i + n) length := by
      omega
    calc List.range' i (min (i + n) length - i) ++ List.range' (i + n) (length - (i + n))
        = List.range' i (min (i + n) length - i) ++
            List.range' (min (i + n) length) (length - (i + n)) := by
          rcases Nat.le_total (i + n) length with h | h
          · rw [Nat.min_eq_left h]
          · have : length - (i + n) = 0 := by omega
            simp [this]
      _ = List.range' i (length - (i + n) + (min (i + n) length - i)) := by
          have := List.range'_append i (min (i + n) length - i) (length - (i + n)) 1
          simp only [Nat.one_mul, harith] at this
          exact this
      _ = List.range' i (length - i) := by rw [hstep]

theorem sliceGenGo_mem (length n : Nat) (hn : 0 < n) :
    ∀ i, ∀ r ∈ sliceGenGo length n i,
      i ≤ r.1 ∧ r.1 < r.2 ∧ r.2 ≤ length ∧ r.2 - r.1 ≤ n ∧
        (r.2 - r.1 = n ∨ r.2 = length) := by
  intro i
  induction i using sliceGenGo.induct length n with
  | case2 i hcond =>
    rw [sliceGenGo]
    simp [dif_neg hcond]
  | case1 i hcond ih =>
    rw [sliceGenGo]
    simp only [dif_pos hcond, List.mem_cons]
    rintro r (rfl | hr)
    · refine ⟨Nat.le_refl i, ?_, ?_, ?_, ?_⟩ <;> simp <;> omega
    · have := ih r hr
      omega

theorem sliceGenGo_chain (length n : Nat) (hn : 0 < n) :
    ∀ i, List.Chain' (fun a b => a.2 = b.1) (sliceGenGo length n i) := by
  intro i
  induction i using sliceGenGo.induct length n with
  | case2 i hcond =>
    rw [sliceGenGo]; simp [dif_neg hcond]
  | case1 i hcond ih =>
    rw [sliceGenGo]
    simp only [dif_pos hcond]
    by_cases hc : 0 < n ∧ i + n < length
    · have ih2 := ih
      rw [sliceGenGo, dif_pos hc] at ih2
      rw [sliceGenGo, dif_pos hc]
      exact List.Chain'.cons (by simp; omega) ih2
    · rw [sliceGenGo, dif_neg hc]
      exact List.chain'_singleton _

/-- C2. For every `length ≥ 0` and `n ≥ 1` the slices yielded by
`slice_generator(length, n)` are consecutive and disjoint, cover
`[0, length)` exactly (their element ranges concatenate, in yield order,
to `[0, 1, …, length-1]`), each is nonempty of size at most `n` and of
size exactly `n` unless it is the final slice ending at `length`; and if
`n ≥ length > 0` the result is the single slice `[0, length)`. -/
theorem slice_generator_spec (length n : Nat) (hn : 1 ≤ n) :
    ((slice_generator length n).map sliceElems).flatten = List.range length ∧
    List.Chain' (fun a b => a.2 = b.1) (slice_generator length n) ∧
    (∀ r ∈ slice_generator length n,
      1 ≤ r.2 - r.1 ∧ r.2 - r.1 ≤ n ∧ (r.2 - r.1 = n ∨ r.2 = length)) ∧
    (length ≤ n → 0 < length → slice_generator length n = [(0, length)]) := by
  refine ⟨?_, sliceGenGo_chain length n hn 0, ?_, ?_⟩
  · rw [slice_generator, sliceGenGo_flatten length n hn 0, Nat.sub_zero,
      List.range_eq_range']
  · intro r hr
    have := sliceGenGo_mem length n hn 0 r hr
    omega
  · intro hle hpos
    rw [slice_generator, sliceGenGo]
    rw [dif_pos (show 0 < n ∧ 0 < length from ⟨hn, hpos⟩)]
    rw [sliceGenGo]
    simp only [Nat.zero_add]
    rw [dif_neg (show ¬ (0 < n ∧ n < length) by omega)]
    have : min n length = length := by omega
    rw [this]

/-- Witness for C2 at `length = 6`, `n = 2` (the docstring example:
three slices `[0,2) [2,4) [4,6)`). -/
theorem slice_generator_spec_witness :
    1 ≤ 2 ∧
    (((slice_generator 6 2).map sliceElems).flatten = List.range 6 ∧
     List.Chain' (fun a b => a.2 = b.1) (slice_generator 6 2) ∧
     (∀ r ∈ slice_generator 6 2,
       1 ≤ r.2 - r.1 ∧ r.2 - r.1 ≤ 2 ∧ (r.2 - r.1 = 2 ∨ r.2 = 6)) ∧
     (6 ≤ 2 → 0 < 6 → slice_generator 6 2 = [(0, 6)])) :=
  ⟨by decide, slice_generator_spec 6 2 (by decide)⟩

/-! ## The DataFrame model and DataframeReader

A pandas `DataFrame` is a list of column names plus a list of rows; each
row carries its integer index label and its list of cell values.
`df[slice(a, b)]` slices rows (labels included) positionally, and
`pd.concat` concatenates the row lists in order, keeping the first
frame's columns; `pd.concat([])` raises `ValueError`. -/

structure DF (α : Type) where
  cols : List String
  rows : List (Nat × List α)
deriving DecidableEq, Repr

/-- `df[slice_]` for a half-open positional slice `(a, b)`. -/
def dfSlice (df : DF α) (r : Nat × Nat) : DF α :=
  { cols := df.cols, rows := (df.rows.drop r.1).take (r.2 - r.1) }

/-- `pd.concat(frames)`; `none` models the `ValueError` raised on an
empty argument list. -/
def pdConcat (l : List (DF α)) : Option (DF α) :=
  match l with
  | [] => none
  | d :: _ => some { cols := d.cols, rows := (l.map DF.rows).flatten }

namespace DataframeReader

/-- `DataframeReader.pipe`: `df.copy()` — a fresh value equal to the
chunk (value semantics make the copy the identity). -/
def pipe (df : DF α) : DF α := df

/-- One full iteration of a reader built with `from_dataframe(df)`:
`__iter__` calls `self._generate_iter()`, which re-runs the producer —
`slice_generator(len(df), chunksize)` applied to `df` — and `pipe` is
applied to every yielded chunk.  Because each call of `iter(self)`
invokes the generator function afresh, every full iteration (and every
`peek`) independently produces this same list. -/
def fromDataframeIter (df : DF α) (chunksize : Nat) : List (DF α) :=
  (slice_generator df.rows.length chunksize).map (fun s => pipe (dfSlice df s))

/-- `DataframeReader.peek`: `next(iter(self))` on a fresh generator;
`none` models the `StopIteration` escaping on an empty stream. -/
def peek (df : DF α) (chunksize : Nat) : Option (DF α) :=
  (fromDataframeIter df chunksize).head?

/-- `DataframeReader.columns`: `self.peek().columns`. -/
def columns (df : DF α) (chunksize : Nat) : Option (List String) :=
  (peek df chunksize).map DF.cols

end DataframeReader

theorem sliceGenGo_extract (n : Nat) (hn : 0 < n) (rows : List β) :
    ∀ i, ((sliceGenGo rows.length n i).map
        (fun r => (rows.drop r.1).take (r.2 - r.1))).flatten = rows.drop i := by
  intro i
  induction i using sliceGenGo.induct rows.length n with
  | case2 i hcond =>
    rw [sliceGenGo]
    simp only [dif_neg hcond, List.map_nil, List.flatten_nil]
    have : rows.length ≤ i := by omega
    exact (List.drop_eq_nil_of_le this).symm
  | case1 i hcond ih =>
    rw [sliceGenGo]
    simp only [dif_pos hcond, List.map_cons, List.flatten_cons, ih]
    rcases Nat.le_total (i + n) rows.length with h | h
    · rw [Nat.min_eq_left h]
      have hdd : rows.drop (i + n) = (rows.drop i).drop n := by
        rw [List.drop_drop]
      rw [hdd]
      have : i + n - i = n := by omega
      rw [this, List.take_append_drop]
    · rw [Nat.min_eq_right h]
      have h1 : rows.drop (i + n) = [] := List.drop_eq_nil_of_le h
      rw [h1, List.append_nil]
      have h2 : (rows.drop i).length = rows.length - i := List.length_drop i rows
      calc (rows.drop i).take (rows.length - i)
          = (rows.drop i).take (rows.drop i).length := by rw [h2]
        _ = rows.drop i := List.take_length _

theorem fromDataframeIter_concat (df : DF α) (n : Nat) (hn : 1 ≤ n)
    (hr : 0 < df.rows.length) :
    pdConcat (DataframeReader.fromDataframeIter df n) = some df := by
  have hext := sliceGenGo_extract n hn df.rows 0
  rw [List.drop_zero] at hext
  have hne : sliceGenGo df.rows.length n 0 =
      (0, min (0 + n) df.rows.length) :: sliceGenGo df.rows.length n (0 + n) := by
    rw [sliceGenGo, dif_pos (show 0 < n ∧ 0 < df.rows.length from ⟨hn, hr⟩)]
  rw [hne] at hext
  unfold DataframeReader.fromDataframeIter slice_generator
  rw [hne]
  simp only [List.map_cons, List.flatten_cons, pdConcat, DataframeReader.pipe]
  have hrows : ((dfSlice df (0, min (0 + n) df.rows.length)).rows ::
      List.map DF.rows (List.map (fun s => dfSlice df s)
        (sliceGenGo df.rows.length n (0 + n)))).flatten = df.rows := by
    simp only [List.map_map]
    simp only [List.map_cons, List.flatten_cons] at hext
    exact hext
  have hcols : (dfSlice df (0, min (0 + n) df.rows.length)).cols = df.cols := rfl
  rw [List.flatten_cons] at hrows
  rw [hcols, hrows]

/-! ## DataframeWriter

`DataframeWriter` keeps `to_return`, a writer callback, a context
manager `_ctm`, the entered resource `_sink` and `block_written`.  Each
output variant is modelled as its own state machine; the `pipe` hook is
the shared identity default.

The in-memory variant's `_ctm` is a `@contextmanager` generator:
`yield list(); self.to_return = pd.concat(self._sink)`.  Its possible
generator positions are modelled by `GenState`:
* `created` — the generator has not run; `__exit__` on it runs the body
  to the `yield` and, since the generator produced a value instead of
  stopping, raises `RuntimeError("generator didn't stop")`;
* `yielded` — suspended at the `yield` (the normal entered state);
* `finished` — the body has completed; a further `__exit__` sees
  `StopIteration` from `next` and returns normally. -/

inductive GenState where
  | created
  | yielded
  | finished
deriving DecidableEq, Repr

/-- `DataframeWriter.pipe`: identity hook. -/
def DataframeWriter.pipe (df : DF α) : DF α := df

/-- State of a `DataframeWriter` configured with `to_dataframe()`. -/
structure MemState (α : Type) where
  genState : GenState
  sinkSet : Bool
  sink : List (DF α)
  toReturn : Option (DF α)
  blockWritten : Nat
deriving DecidableEq, Repr

/-- A freshly configured `DataframeWriter().to_dataframe()`. -/
def memInit : MemState α :=
  { genState := .created, sinkSet := false, sink := [], toReturn := none,
    blockWritten := 0 }

/-- `__enter__`: `self._sink = self._ctm.__enter__()`, i.e. `next(gen)`
up to the `yield list()`.  On a generator that is not fresh, `next`
raises `StopIteration`, which `__enter__` turns into an error. -/
def memEnter (s : MemState α) : Except PyErr (MemState α) :=
  match s.genState with
  | .created => .ok { s with genState := .yielded, sinkSet := true, sink := [] }
  | _ => .error .stopIteration

/-- `write(df)` for the in-memory variant: enter the context manager if
`_sink` is still unset, then `self._sink.append(self.pipe(df))` and
`self.block_written += 1`. -/
def memWrite (s : MemState α) (df : DF α) : Except PyErr (MemState α) :=
  match (if s.sinkSet then Except.ok s else memEnter s) with
  | .error e => .error e
  | .ok s1 =>
    .ok { s1 with sink := s1.sink ++ [DataframeWriter.pipe df],
                  blockWritten := s1.blockWritten + 1 }

/-- `__exit__(None, None, None)` delegated to the generator context
manager: `next(self.gen)`.  From `yielded` the body resumes and runs
`self.to_return = pd.concat(self._sink)` (a `ValueError` if no chunk was
appended) and then stops. -/
def memExit (s : MemState α) : Except PyErr (MemState α) :=
  match s.genState with
  | .created => .error .runtimeError
  | .yielded =>
    match pdConcat s.sink with
    | none => .error .valueError
    | some d => .ok { s with genState := .finished, toReturn := some d }
  | .finished => .ok s

/-- `close()`: `self.__exit__(None, None, None); return self.to_return`. -/
def memClose (s : MemState α) : Except PyErr (MemState α × Option (DF α)) :=
  match memExit s with
  | .error e => .error e
  | .ok s1 => .ok (s1, s1.toReturn)

/-- Writing a list of chunks in order (a sequence of `write` calls). -/
def memWriteAll (s : MemState α) (l : List (DF α)) : Except PyErr (MemState α) :=
  match l with
  | [] => .ok s
  | d :: rest => (memWrite s d).bind fun s1 => memWriteAll s1 rest

/-- State of a `DataframeWriter` configured with `to_csv(path)`.  The
file handle (`self._ctm = open(path, "w")`) is acquired eagerly at
configuration time. -/
structure CsvState (α : Type) where
  handleOpen : Bool
  sinkSet : Bool
  toReturn : Option (DF α)
  blockWritten : Nat
deriving DecidableEq, Repr

/-- A freshly configured `DataframeWriter().to_csv(path)`. -/
def csvInit : CsvState α :=
  { handleOpen := true, sinkSet := false, toReturn := none, blockWritten := 0 }

/-- `write(df)` for the delimited-text variant.  The lazy `__enter__`
sets `_sink` to the file handle; then the variant's writer runs
`pd.to_csv(df, self._sink, **kwargs)`.  The pandas module has no
top-level `to_csv` attribute (writing is the `DataFrame.to_csv`
method), so the attribute lookup raises `AttributeError` before
anything is written and before `block_written` is incremented.  The
state reached when the exception escapes is returned alongside the
error. -/
def csvWrite (s : CsvState α) (_df : DF α) : CsvState α × Option PyErr :=
  let s1 := if s.sinkSet then s else { s with sinkSet := true }
  (s1, some .attributeError)

/-- `close()` for the delimited-text variant: `__exit__` closes the
file handle and `close` returns `self.to_return` (never set for this
variant). -/
def csvClose (s : CsvState α) : Except PyErr (CsvState α × Option (DF α)) :=
  .ok ({ s with handleOpen := false }, s.toReturn)

/-- State of a `DataframeWriter` configured with `to_parquet(path)`:
the inner `to_dataframe()` machinery plus the wrapping generator
context manager that persists the concatenated frame on exit. -/
structure ParquetState (α : Type) where
  inner : MemState α
  outerGen : GenState
  fileWritten : Option (DF α)
deriving DecidableEq, Repr

/-- A freshly configured `DataframeWriter().to_parquet(path)`. -/
def parquetInit : ParquetState α :=
  { inner := memInit, outerGen := .created, fileWritten := none }

/-- `close()` for the columnar variant.  On a never-entered outer
generator, `__exit__`'s `next(self.gen)` runs the body: it enters the
inner context manager and then yields, so `__exit__` raises
`RuntimeError("generator didn't stop")`.  From the entered state the
body resumes: the inner `with` block exits (computing `to_return`),
the concatenated frame is converted and persisted, and the generator
stops. -/
def parquetClose (s : ParquetState α) :
    Except PyErr (ParquetState α × Option (DF α)) :=
  match s.outerGen with
  | .created => .error .runtimeError
  | .yielded =>
    match memExit s.inner with
    | .error e => .error e
    | .ok m1 =>
      .ok ({ inner := m1, outerGen := .finished, fileWritten := m1.toReturn },
           m1.toReturn)
  | .finished => .ok (s, s.inner.toReturn)

theorem fromDataframeIter_rows (df : DF α) (n : Nat) (hn : 1 ≤ n) :
    ((DataframeReader.fromDataframeIter df n).map DF.rows).flatten = df.rows := by
  have hext := sliceGenGo_extract n hn df.rows 0
  rw [List.drop_zero] at hext
  unfold DataframeReader.fromDataframeIter slice_generator
  rw [List.map_map]
  exact hext

/-- The 5-row, 2-column example table of the concrete scenario. -/
def ex5 : DF Int :=
  { cols := ["id", "value"],
    rows := [(0, [0, 100]), (1, [1, 101]), (2, [2, 102]),
             (3, [3, 103]), (4, [4, 104])] }

theorem ex5_chunks :
    DataframeReader.fromDataframeIter ex5 2 =
      [{ cols := ["id", "value"], rows := [(0, [0, 100]), (1, [1, 101])] },
       { cols := ["id", "value"], rows := [(2, [2, 102]), (3, [3, 103])] },
       { cols := ["id", "value"], rows := [(4, [4, 104])] }] := by
  simp +decide [DataframeReader.fromDataframeIter, slice_generator, sliceGenGo,
    dfSlice, DataframeReader.pipe, ex5]

/-- C3.  For every table and chunksize `n ≥ 1`, the chunks yielded by a
`from_dataframe` reader concatenate, in yield order, back to the
original table; and in the concrete scenario (5-row table with columns
`id`,`value`, chunksize 2) the chunk sizes are `[2, 2, 1]` and writing
the chunks to the in-memory sink and closing returns the input table. -/
theorem from_dataframe_roundtrip (df : DF α) (n : Nat) (hn : 1 ≤ n)
    (hr : 0 < df.rows.length) :
    pdConcat (DataframeReader.fromDataframeIter df n) = some df ∧
    (DataframeReader.fromDataframeIter ex5 2).map (fun d => d.rows.length) =
      [2, 2, 1] ∧
    ((memWriteAll memInit (DataframeReader.fromDataframeIter ex5 2)).bind
        memClose).map (fun p => p.2) = .ok (some ex5) := by
  refine ⟨fromDataframeIter_concat df n hn hr, ?_, ?_⟩
  · rw [ex5_chunks]
    rfl
  · rw [ex5_chunks]
    rfl

/-- Witness for C3 at the example table `ex5` with chunksize 2. -/
theorem from_dataframe_roundtrip_witness :
    (1 ≤ 2 ∧ 0 < ex5.rows.length) ∧
    (pdConcat (DataframeReader.fromDataframeIter ex5 2) = some ex5 ∧
     (DataframeReader.fromDataframeIter ex5 2).map (fun d => d.rows.length) =
       [2, 2, 1] ∧
     ((memWriteAll memInit (DataframeReader.fromDataframeIter ex5 2)).bind
         memClose).map (fun p => p.2) = .ok (some ex5)) :=
  ⟨⟨by decide, by decide⟩, from_dataframe_roundtrip ex5 2 (by decide) (by decide)⟩

/-- C7.  Peeking is side-effect-free: `peek` materializes only the head
chunk of a fresh iteration of the generator (`__iter__` re-invokes
`self._generate_iter()`, so the peeked generator is abandoned, not
shared), `columns` returns the schema of the first chunk, and a full
iteration still carries every row of the table — its total row count is
the table's row count, peek or no peek. -/
theorem peek_side_effect_free (df : DF α) (n : Nat) (hn : 1 ≤ n)
    (hr : 0 < df.rows.length) :
    DataframeReader.peek df n = (DataframeReader.fromDataframeIter df n).head? ∧
    DataframeReader.peek df n =
      some (DataframeReader.pipe (dfSlice df (0, min (0 + n) df.rows.length))) ∧
    DataframeReader.columns df n = some df.cols ∧
    ((DataframeReader.fromDataframeIter df n).map
        (fun d => d.rows.length)).sum = df.rows.length := by
  have hne : sliceGenGo df.rows.length n 0 =
      (0, min (0 + n) df.rows.length) :: sliceGenGo df.rows.length n (0 + n) := by
    rw [sliceGenGo, dif_pos (show 0 < n ∧ 0 < df.rows.length from ⟨hn, hr⟩)]
  have hpeek : DataframeReader.peek df n =
      some (DataframeReader.pipe (dfSlice df (0, min (0 + n) df.rows.length))) := by
    unfold DataframeReader.peek DataframeReader.fromDataframeIter slice_generator
    rw [hne]
    rfl
  refine ⟨rfl, hpeek, ?_, ?_⟩
  · unfold DataframeReader.columns
    rw [hpeek]
    rfl
  · have hflat := fromDataframeIter_rows df n hn
    calc ((DataframeReader.fromDataframeIter df n).map
            (fun d => d.rows.length)).sum
        = (((DataframeReader.fromDataframeIter df n).map DF.rows).map
            List.length).sum := by rw [List.map_map]; rfl
      _ = (((DataframeReader.fromDataframeIter df n).map DF.rows).flatten).length :=
          (List.length_flatten _).symm
      _ = df.rows.length := by rw [hflat]

/-- Witness for C7 at the example table `ex5` with chunksize 2. -/
theorem peek_side_effect_free_witness :
    (1 ≤ 2 ∧ 0 < ex5.rows.length) ∧
    (DataframeReader.peek ex5 2 = (DataframeReader.fromDataframeIter ex5 2).head? ∧
     DataframeReader.peek ex5 2 =
       some (DataframeReader.pipe (dfSlice ex5 (0, min (0 + 2) ex5.rows.length))) ∧
     DataframeReader.columns ex5 2 = some ex5.cols ∧
     ((DataframeReader.fromDataframeIter ex5 2).map
         (fun d => d.rows.length)).sum = ex5.rows.length) :=
  ⟨⟨by decide, by decide⟩, peek_side_effect_free ex5 2 (by decide) (by decide)⟩

/-- C4 (code bug).  The delimited-text writer's callback is
`pd.to_csv(df, self._sink, **kwargs)`, but pandas has no module-level
`to_csv` attribute (CSV output is the `DataFrame.to_csv` method), so
every `write` raises `AttributeError` before emitting anything: no
header or data line is ever written, `block_written` stays unchanged,
and the header-suppression contract cannot be observed at all. -/
theorem csv_write_attribute_error (s : CsvState α) (df : DF α) :
    (csvWrite s df).2 = some PyErr.attributeError ∧
    (csvWrite s df).1.blockWritten = s.blockWritten ∧
    (csvWrite s df).1.toReturn = s.toReturn := by
  unfold csvWrite
  by_cases h : s.sinkSet <;> simp [h]

/-- C8 counterexample.  Closing a configured in-memory sink that never
received a write is not a no-op: `__exit__` runs the never-entered
`@contextmanager` generator, which yields instead of stopping, so
`close()` raises `RuntimeError` rather than returning an absent
result. -/
theorem close_unwritten_memory_raises :
    memClose (memInit : MemState Int) = .error .runtimeError := rfl

/-- C8 amended.  With no writes ever received, `close()` is a benign
no-op returning an absent result only for the delimited-text variant
(the file context manager tolerates `__exit__` without `__enter__`);
for the in-memory and columnar variants the never-entered generator
context manager makes `close()` raise `RuntimeError`. -/
theorem close_unwritten_by_variant (α : Type) :
    csvClose (csvInit : CsvState α) =
      .ok ({ csvInit with handleOpen := false }, none) ∧
    memClose (memInit : MemState α) = .error .runtimeError ∧
    parquetClose (parquetInit : ParquetState α) = .error .runtimeError :=
  ⟨rfl, rfl, rfl⟩

/-- A one-row chunk used in the write-after-close run. -/
def exChunkA : DF Int := { cols := ["id", "value"], rows := [(0, [0, 100])] }

/-- A second one-row chunk used in the write-after-close run. -/
def exChunkB : DF Int := { cols := ["id", "value"], rows := [(1, [1, 101])] }

/-- C9 counterexample.  In-memory sink: one write, a successful
`close()`, then another write.  The post-close write does not fail: no
closed-state check exists, `_sink` is still bound to the (now dead)
accumulator list, so the write appends silently and the block counter
reaches 2. -/
theorem write_after_close_succeeds_cex :
    ((memWrite (memInit : MemState Int) exChunkA).bind fun s1 =>
        (memClose s1).bind fun p => memWrite p.1 exChunkB).map
      (fun s => (s.blockWritten, s.sink, s.toReturn)) =
    .ok (2, [exChunkA, exChunkB], some exChunkA) := rfl

/-- C9 amended.  After a successful `close()` of an entered in-memory
sink, a further `write(chunk)` succeeds silently: it appends the chunk
to the defunct accumulator and increments `block_written`, leaving the
already-computed `to_return` untouched, instead of surfacing a
resource error. -/
theorem write_after_close_appends (s : MemState α) (df : DF α)
    (p : MemState α × Option (DF α))
    (hs : s.sinkSet = true) (hc : memClose s = .ok p) :
    memWrite p.1 df =
      .ok { p.1 with sink := p.1.sink ++ [DataframeWriter.pipe df],
                     blockWritten := p.1.blockWritten + 1 } := by
  have hset : p.1.sinkSet = true := by
    unfold memClose memExit at hc
    split at hc
    · exact absurd hc (by simp)
    · rename_i s1 heq
      injection hc with h
      rw [← h]
      split at heq
      · exact absurd heq (by simp)
      · split at heq
        · exact absurd heq (by simp)
        · injection heq with h2
          rw [← h2]
          exact hs
      · injection heq with h2
        rw [← h2]
        exact hs
  unfold memWrite
  rw [if_pos hset]

/-- Witness for C9's amended theorem: the state after one write. -/
theorem write_after_close_appends_witness :
    ((memWrite (memInit : MemState Int) exChunkA = .ok
        { genState := .yielded, sinkSet := true, sink := [exChunkA],
          toReturn := none, blockWritten := 1 }) ∧
     ({ genState := .yielded, sinkSet := true, sink := [exChunkA],
        toReturn := none, blockWritten := 1 } : MemState Int).sinkSet = true ∧
     memClose ({ genState := .yielded, sinkSet := true, sink := [exChunkA],
                 toReturn := none, blockWritten := 1 } : MemState Int) = .ok
       ({ genState := .finished, sinkSet := true, sink := [exChunkA],
          toReturn := some exChunkA, blockWritten := 1 }, some exChunkA)) ∧
    memWrite ({ genState := .finished, sinkSet := true, sink := [exChunkA],
                toReturn := some exChunkA, blockWritten := 1 } : MemState Int)
        exChunkB =
      .ok { genState := .finished, sinkSet := true,
            sink := [exChunkA] ++ [DataframeWriter.pipe exChunkB],
            toReturn := some exChunkA, blockWritten := 1 + 1 } :=
  ⟨⟨rfl, rfl, rfl⟩,
   write_after_close_appends
     { genState := .yielded, sinkSet := true, sink := [exChunkA],
       toReturn := none, blockWritten := 1 }
     exChunkB
     ({ genState := .finished, sinkSet := true, sink := [exChunkA],
        toReturn := some exChunkA, blockWritten := 1 }, some exChunkA)
     rfl rfl⟩

/-! ## BufferedObjectWriter

The generic bounded buffer.  The downstream writer's received batches
are recorded in `flushed` (one entry per `self.writer.write(self.buffer)`
call). -/

structure BOWState (α : Type) where
  chunksize : Nat
  buffer : List α
  nInBuffer : Nat
  nWritten : Nat
  chunkWritten : Nat
  flushed : List (List α)
deriving DecidableEq, Repr

/-- `BufferedObjectWriter(writer, chunksize)`. -/
def bowInit (chunksize : Nat) : BOWState α :=
  { chunksize := chunksize, buffer := [], nInBuffer := 0, nWritten := 0,
    chunkWritten := 0, flushed := [] }

namespace BufferedObjectWriter

/-- `flush()`: a no-op on an empty buffer; otherwise hand the batch to
the downstream writer, add to `n_written`, reset `n_in_buffer`,
increment `chunk_written` and empty the buffer. -/
def flush (s : BOWState α) : BOWState α :=
  if s.buffer.length = 0 then s
  else
    { s with flushed := s.flushed ++ [s.buffer],
             nWritten := s.nWritten + s.nInBuffer,
             nInBuffer := 0,
             chunkWritten := s.chunkWritten + 1,
             buffer := [] }

/-- `write(obj)`: flush first if the buffer holds at least `chunksize`
items, then append and count. -/
def write (s : BOWState α) (obj : α) : BOWState α :=
  let s1 := if s.chunksize ≤ s.nInBuffer then flush s else s
  { s1 with buffer := s1.buffer ++ [obj], nInBuffer := s1.nInBuffer + 1 }

/-- A sequence of `write` calls. -/
def writeAll (s : BOWState α) (l : List α) : BOWState α :=
  l.foldl write s

end BufferedObjectWriter

theorem bow_writeAll_no_flush (c : Nat) (l : List α) :
    ∀ s : BOWState α, s.chunksize = c → s.nInBuffer = s.buffer.length →
      s.buffer.length + l.length ≤ c →
      BufferedObjectWriter.writeAll s l =
        { s with buffer := s.buffer ++ l, nInBuffer := s.nInBuffer + l.length } := by
  induction l with
  | nil => intro s hc hn hlen; simp [BufferedObjectWriter.writeAll]
  | cons x rest ih =>
    intro s hc hn hlen
    have hlt : ¬ s.chunksize ≤ s.nInBuffer := by
      simp at hlen
      omega
    have hstep : BufferedObjectWriter.write s x =
        { s with buffer := s.buffer ++ [x], nInBuffer := s.nInBuffer + 1 } := by
      unfold BufferedObjectWriter.write
      rw [if_neg hlt]
    show BufferedObjectWriter.writeAll (BufferedObjectWriter.write s x) rest = _
    rw [hstep, ih _ (by simpa using hc) (by simp [hn]) (by simp; simp at hlen; omega)]
    simp [List.append_assoc]
    omega

/-- C5.  For capacity `c ≥ 1`: a `write` flushes the pending buffer
before appending exactly when the buffer already holds at least `c`
items (so a completed `write` always leaves at most `c` buffered
items), and `c + 1` consecutive writes from a fresh buffer trigger
exactly one intermediate flush, delivering exactly the first `c` items
downstream and leaving exactly the one remaining item buffered. -/
theorem buffered_writer_capacity (c : Nat) (hc : 1 ≤ c) :
    (∀ (s : BOWState α) (x : α), s.chunksize = c →
      s.nInBuffer = s.buffer.length →
      (BufferedObjectWriter.write s x).buffer =
        (if c ≤ s.buffer.length then [x] else s.buffer ++ [x]) ∧
      (BufferedObjectWriter.write s x).buffer.length ≤ c) ∧
    (∀ l : List α, l.length = c + 1 →
      BufferedObjectWriter.writeAll (bowInit c) l =
        { chunksize := c, buffer := l.drop c, nInBuffer := 1,
          nWritten := c, chunkWritten := 1, flushed := [l.take c] }) := by
  constructor
  · intro s x hcs hn
    unfold BufferedObjectWriter.write
    by_cases hfull : c ≤ s.buffer.length
    · rw [if_pos (by omega)]
      unfold BufferedObjectWriter.flush
      rw [if_neg (by omega)]
      refine ⟨?_, ?_⟩
      · rw [if_pos hfull]
        rfl
      · simp
        omega
    · rw [if_neg (by omega)]
      refine ⟨?_, ?_⟩
      · rw [if_neg hfull]
      · simp
        omega
  · intro l hlen
    have hlen1 : (l.drop c).length = 1 := by rw [List.length_drop]; omega
    obtain ⟨z, hz⟩ := List.length_eq_one.mp hlen1
    have htake : (l.take c).length = c := by rw [List.length_take]; omega
    conv_lhs => rw [← List.take_append_drop c l, hz]
    unfold BufferedObjectWriter.writeAll
    rw [List.foldl_append]
    have hfrontrun := bow_writeAll_no_flush c (l.take c) (bowInit (α := α) c)
      rfl rfl (by simp [bowInit, htake])
    unfold BufferedObjectWriter.writeAll at hfrontrun
    rw [hfrontrun]
    simp only [List.foldl_cons, List.foldl_nil]
    unfold BufferedObjectWriter.write
    rw [if_pos (by simp [bowInit, htake])]
    unfold BufferedObjectWriter.flush
    rw [if_neg (by simp [bowInit, htake]; omega)]
    simp [bowInit, htake, hz]

/-- Witness for C5 at `c = 2` with the three writes `[10, 20, 30]`. -/
theorem buffered_writer_capacity_witness :
    1 ≤ 2 ∧
    ((∀ (s : BOWState Nat) (x : Nat), s.chunksize = 2 →
       s.nInBuffer = s.buffer.length →
       (BufferedObjectWriter.write s x).buffer =
         (if 2 ≤ s.buffer.length then [x] else s.buffer ++ [x]) ∧
       (BufferedObjectWriter.write s x).buffer.length ≤ 2) ∧
     (∀ l : List Nat, l.length = 2 + 1 →
       BufferedObjectWriter.writeAll (bowInit 2) l =
         { chunksize := 2, buffer := l.drop 2, nInBuffer := 1,
           nWritten := 2, chunkWritten := 1, flushed := [l.take 2] })) :=
  ⟨by decide, buffered_writer_capacity 2 (by decide)⟩

/-! ## LineReader

`LineReader.__iter__` renders each chunk with `df.to_csv(f, **kwargs)`
and yields the resulting lines (through the identity `pipe` hook).  A
rendered line is either the header line (column names) or one data row
(index label plus cells).  The `kwargs["header"]` entry is modelled as
`Option Bool`: `none` means the key is absent, `some true` a truthy
value, `some false` the falsy `None` the code stores to suppress the
header.  `__iter__` mutates the stored kwargs: it first writes back
`kwargs.get("header", True)` and, upon reaching the second chunk
(`ind == 1`), overwrites the entry with `None` for good. -/

inductive LRLine (α : Type) where
  | headerLine (cols : List String)
  | dataLine (row : Nat × List α)
deriving DecidableEq, Repr

/-- Is this rendered line the header line? -/
def isHeaderLine : LRLine α → Bool
  | .headerLine _ => true
  | .dataLine _ => false

/-- `df.to_csv` output split into lines: the header line when the
header option is truthy, then one line per row. -/
def dfLines (h : Bool) (df : DF α) : List (LRLine α) :=
  (if h then [LRLine.headerLine df.cols] else []) ++ df.rows.map LRLine.dataLine

/-- The data lines of a chunk list, in order, with no header. -/
def dataFlat (cs : List (DF α)) : List (LRLine α) :=
  (cs.map (fun d => d.rows.map LRLine.dataLine)).flatten

namespace LineReader

/-- The `for ind, df in enumerate(self.reader)` loop body: at `ind == 1`
the header flag is set to `None`; each chunk is rendered with the flag's
current value.  Returns the emitted lines and the final flag value. -/
def go (h : Bool) (ind : Nat) : List (DF α) → List (LRLine α) × Bool
  | [] => ([], h)
  | df :: rest =>
    let h1 := if ind = 1 then false else h
    let p := go h1 (ind + 1) rest
    (dfLines h1 df ++ p.1, p.2)

/-- One full iteration of `LineReader.__iter__` over the chunks yielded
by the source reader: returns the emitted lines and the stored
`kwargs["header"]` after the iteration (always present afterwards,
because the loop prologue writes `kwargs.get("header", True)` back). -/
def iterate (hk : Option Bool) (cs : List (DF α)) :
    List (LRLine α) × Option Bool :=
  let h0 := hk.getD true
  let p := go h0 0 cs
  (p.1, some p.2)

/-- `n` successive full iterations of the same `LineReader` object over
the same source: the stored kwargs thread from one iteration to the
next.  Returns the list of outputs and the final stored header entry. -/
def iterateRepeat (hk : Option Bool) (cs : List (DF α)) :
    Nat → List (List (LRLine α)) × Option Bool
  | 0 => ([], hk)
  | Nat.succ n =>
    let p := iterate hk cs
    let q := iterateRepeat p.2 cs n
    (p.1 :: q.1, q.2)

end LineReader

theorem lineReader_go_false (cs : List (DF α)) :
    ∀ ind, LineReader.go false ind cs = (dataFlat cs, false) := by
  induction cs with
  | nil => intro ind; rfl
  | cons c rest ih =>
    intro ind
    simp only [LineReader.go, ite_self]
    rw [ih (ind + 1)]
    unfold dataFlat dfLines
    simp

theorem lineReader_go_one (cs : List (DF α)) (h : Bool) :
    LineReader.go h 1 cs = (dataFlat cs, if cs.isEmpty then h else false) := by
  cases cs with
  | nil => rfl
  | cons c rest =>
    simp only [LineReader.go, if_true, eq_self_iff_true]
    rw [lineReader_go_false rest (1 + 1)]
    unfold dataFlat dfLines
    simp

theorem dataFlat_no_header (cs : List (DF α)) :
    (dataFlat cs).countP (fun l => isHeaderLine l) = 0 := by
  rw [List.countP_eq_zero]
  intro a ha
  unfold dataFlat at ha
  rw [List.mem_flatten] at ha
  obtain ⟨l, hl, hal⟩ := ha
  rw [List.mem_map] at hl
  obtain ⟨d, _, rfl⟩ := hl
  rw [List.mem_map] at hal
  obtain ⟨r, _, rfl⟩ := hal
  simp [isHeaderLine]

/-- C6 counterexample.  Over a source yielding zero chunks the loop
body never runs, so a full iteration emits no lines at all — the
header line appears zero times, not exactly once. -/
theorem line_reader_empty_source_no_header :
    (LineReader.iterate (none : Option Bool) ([] : List (DF Int))).1 = [] ∧
    (LineReader.iterate (none : Option Bool) ([] : List (DF Int))).1.countP
      (fun l => isHeaderLine l) = 0 :=
  ⟨rfl, rfl⟩

/-- C6 (amended).  With the header option enabled (absent or truthy)
and a source yielding at least one chunk, a full iteration emits the
header line exactly once — as the very first line, carrying the first
chunk's schema — followed by all chunks' data lines with no repeated
header. -/
theorem line_reader_single_header (hk : Option Bool) (c0 : DF α)
    (rest : List (DF α)) (he : hk = none ∨ hk = some true) :
    (LineReader.iterate hk (c0 :: rest)).1 =
      LRLine.headerLine c0.cols :: dataFlat (c0 :: rest) ∧
    (LineReader.iterate hk (c0 :: rest)).1.countP (fun l => isHeaderLine l) = 1 := by
  have h0 : hk.getD true = true := by rcases he with rfl | rfl <;> rfl
  have hif : (if (0 : Nat) = 1 then false else true) = true := if_neg (by omega)
  have hfst : (LineReader.iterate hk (c0 :: rest)).1 =
      LRLine.headerLine c0.cols :: dataFlat (c0 :: rest) := by
    simp only [LineReader.iterate, LineReader.go, h0, hif]
    rw [lineReader_go_one rest true]
    unfold dfLines dataFlat
    simp
  refine ⟨hfst, ?_⟩
  rw [hfst]
  rw [List.countP_cons]
  have := dataFlat_no_header (c0 :: rest)
  simp only [this]
  rfl

/-- Witness for C6: a two-chunk source with the header key absent. -/
theorem line_reader_single_header_witness :
    ((none : Option Bool) = none ∨ (none : Option Bool) = some true) ∧
    ((LineReader.iterate none [exChunkA, exChunkB]).1 =
       LRLine.headerLine exChunkA.cols :: dataFlat [exChunkA, exChunkB] ∧
     (LineReader.iterate none [exChunkA, exChunkB]).1.countP
       (fun l => isHeaderLine l) = 1) :=
  ⟨Or.inl rfl,
   line_reader_single_header none exChunkA [exChunkB] (Or.inl rfl)⟩

theorem lineReader_iterate_suppressed (cs : List (DF α)) :
    LineReader.iterate (some false) cs = (dataFlat cs, some false) := by
  cases cs with
  | nil => rfl
  | cons c rest =>
    simp only [LineReader.iterate, LineReader.go, Option.getD_some, ite_self]
    rw [lineReader_go_false rest (0 + 1)]
    unfold dataFlat dfLines
    simp

/-- C10.  Over a source of at least two chunks, a first full iteration
with the header option enabled leaves `kwargs["header"] = None` stored
in the reader, and every subsequent full iteration of the same
`LineReader` object therefore emits only data lines — no header line at
all. -/
theorem line_reader_header_lost_after_first (hk : Option Bool)
    (c0 c1 : DF α) (rest : List (DF α)) (he : hk = none ∨ hk = some true) :
    (LineReader.iterate hk (c0 :: c1 :: rest)).2 = some false ∧
    (∀ n out,
      out ∈ (LineReader.iterateRepeat (LineReader.iterate hk (c0 :: c1 :: rest)).2
        (c0 :: c1 :: rest) n).1 →
      out = dataFlat (c0 :: c1 :: rest)) := by
  have h0 : hk.getD true = true := by rcases he with rfl | rfl <;> rfl
  have hif : (if (0 : Nat) = 1 then false else true) = true := if_neg (by omega)
  have hsnd : (LineReader.iterate hk (c0 :: c1 :: rest)).2 = some false := by
    simp only [LineReader.iterate, LineReader.go, h0, hif, if_true,
      eq_self_iff_true]
    rw [lineReader_go_false rest (0 + 1 + 1)]
  refine ⟨hsnd, ?_⟩
  rw [hsnd]
  intro n
  induction n with
  | zero => intro out hout; exact absurd hout (by simp [LineReader.iterateRepeat])
  | succ m ih =>
    intro out hout
    unfold LineReader.iterateRepeat at hout
    rw [lineReader_iterate_suppressed] at hout
    simp only [List.mem_cons] at hout
    rcases hout with rfl | hout
    · rfl
    · exact ih out hout

/-- Witness for C10: two one-row chunks with the header key absent. -/
theorem line_reader_header_lost_after_first_witness :
    ((none : Option Bool) = none ∨ (none : Option Bool) = some true) ∧
    ((LineReader.iterate none [exChunkA, exChunkB]).2 = some false ∧
     (∀ n out,
       out ∈ (LineReader.iterateRepeat (LineReader.iterate none [exChunkA, exChunkB]).2
         [exChunkA, exChunkB] n).1 →
       out = dataFlat [exChunkA, exChunkB])) :=
  ⟨Or.inl rfl,
   line_reader_header_lost_after_first none exChunkA exChunkB [] (Or.inl rfl)⟩

/-! ## LineWriter (ReassemblyBuffer)

`LineWriter` extends `BufferedObjectWriter`; its buffer holds raw text
lines, and the overridden `flush` reparses them into a DataFrame chunk.
The raw lines of the modelled stream are the one header line and the
numbered data rows.  `pd.read_csv` on a joined nonempty buffer consumes
the first line as the header when the `header` kwarg is absent
(`header='infer'`) and no line at all once `header=None` and `names`
have been recorded; each remaining line decodes to one data row, in
order. -/

inductive RawLine where
  | header
  | data (i : Nat)
deriving DecidableEq, Repr

/-- A reconstructed chunk: the decoded data rows (identified by the raw
lines they decode from, in order) and the start of the row-index range
assigned by the reindexing step — `none` when an explicit `index` kwarg
was supplied and the decoded index is kept. -/
structure LWChunk where
  idxStart : Option Nat
  rows : List RawLine
deriving DecidableEq, Repr

/-- `self.buffer` of a `LineWriter`: normally the list of buffered raw
lines.  After a degenerate flush (the decoded frame has zero rows, so
`super().flush()` refuses it) the attribute is left holding the decoded
DataFrame itself. -/
inductive LWBuf where
  | lines (ls : List RawLine)
  | frame (c : LWChunk)
deriving DecidableEq, Repr

/-- `len(self.buffer)`: list length, or the row count of a frame. -/
def LWBuf.len : LWBuf → Nat
  | .lines ls => ls.length
  | .frame c => c.rows.length

/-- `self.buffer.append(obj)`.  On a line list this appends.  On a
DataFrame (the degenerate state) `DataFrame.append` of pandas < 2.0
returns a new frame; the code discards the return value, so the buffer
is unchanged and the line is lost.  (pandas ≥ 2.0 removed the method
and would raise `AttributeError` here; under either behaviour no line
ever reaches a reconstructed chunk from this state.) -/
def LWBuf.append (b : LWBuf) (l : RawLine) : LWBuf :=
  match b with
  | .lines ls => .lines (ls ++ [l])
  | .frame c => .frame c

/-- The state of a `LineWriter` plus the record of chunks handed to the
downstream writer (`emitted`, one entry per `writer.write` call). -/
structure LWState where
  chunksize : Nat
  buffer : LWBuf
  nInBuffer : Nat
  nWritten : Nat
  chunkWritten : Nat
  headerLines : Nat
  headerKw : Option Bool
  namesKw : Bool
  indexKw : Option Unit
  emitted : List LWBuf
deriving DecidableEq, Repr

/-- `LineWriter(writer, chunksize)` with no `header`/`names`/`index`
format options supplied. -/
def lwInit (chunksize : Nat) : LWState :=
  { chunksize := chunksize, buffer := .lines [], nInBuffer := 0,
    nWritten := 0, chunkWritten := 0, headerLines := 0, headerKw := none,
    namesKw := false, indexKw := none, emitted := [] }

/-- `super().flush()` (`BufferedObjectWriter.flush`) as invoked at the
end of `LineWriter.flush`, with `self.buffer` already replaced by the
decoded frame: a no-op if the buffer is empty, else hand the buffer to
the downstream writer, account, and reset the buffer to a fresh list. -/
def lwSuperFlush (s : LWState) : LWState :=
  if s.buffer.len = 0 then s
  else
    { s with emitted := s.emitted ++ [s.buffer],
             nWritten := s.nWritten + s.nInBuffer,
             nInBuffer := 0,
             chunkWritten := s.chunkWritten + 1,
             buffer := .lines [] }

namespace LineWriter

/-- `LineWriter.flush`.  `none` models the `TypeError` that
`b''.join(self.buffer)` would raise if the buffer held a nonempty
DataFrame (a state no modelled run reaches).  Otherwise: decode the
buffered lines, reindex from `n_written - header_lines` unless an
explicit index column was requested, on the first flush record the
decoded schema into `names`, disable header decoding, and set
`header_lines = n_in_buffer - len(df)`; finally store the (identity-
piped) frame as the buffer and run the superclass flush. -/
def flush (s : LWState) : Option LWState :=
  if s.buffer.len = 0 then some s
  else
    match s.buffer with
    | .frame _ => none
    | .lines ls =>
      let rows := if s.headerKw.isNone then ls.tail else ls
      let c : LWChunk :=
        { idxStart :=
            if s.indexKw.isNone then some (s.nWritten - s.headerLines)
            else none,
          rows := rows }
      let s1 :=
        if s.chunkWritten = 0 then
          { s with namesKw := true, headerKw := some false,
                   headerLines := s.nInBuffer - rows.length }
        else s
      some (lwSuperFlush { s1 with buffer := .frame c })

/-- `write(obj)`, inherited from `BufferedObjectWriter`; `self.flush()`
dispatches to the override above. -/
def write (s : LWState) (l : RawLine) : Option LWState :=
  match (if s.chunksize ≤ s.nInBuffer then flush s else some s) with
  | none => none
  | some s1 =>
    some { s1 with buffer := s1.buffer.append l,
                   nInBuffer := s1.nInBuffer + 1 }

/-- `close()`: flush the remainder, then close the downstream writer
(whose received chunks are the `emitted` record). -/
def close (s : LWState) : Option LWState := flush s

end LineWriter

/-- An operation performed on a `LineWriter`: one `write` call or one
explicit `flush` call. -/
inductive LWOp where
  | wr (l : RawLine)
  | fl
deriving DecidableEq, Repr

/-- One operation. -/
def lwStep (s : LWState) : LWOp → Option LWState
  | .wr l => LineWriter.write s l
  | .fl => LineWriter.flush s

/-- A sequence of operations. -/
def lwRun (s : LWState) : List LWOp → Option LWState
  | [] => some s
  | op :: ops =>
    match lwStep s op with
    | none => none
    | some s1 => lwRun s1 ops

/-- The lines carried by the `write` calls of an operation sequence, in
order. -/
def writesOf : List LWOp → List RawLine
  | [] => []
  | .wr l :: ops => l :: writesOf ops
  | .fl :: ops => writesOf ops

/-- A flush about to run is benign: the buffer is empty, or — when the
header has not yet been recovered (`chunk_written = 0`) — it holds at
least two lines, i.e. the header plus at least one data line. -/
def flushOkB (s : LWState) : Bool :=
  decide (s.chunkWritten ≠ 0) || decide (s.buffer.len = 0) ||
    decide (2 ≤ s.buffer.len)

/-- The per-operation side condition: an explicit `flush` must be
benign, and so must the flush a `write` is about to trigger. -/
def opOkB (s : LWState) : LWOp → Bool
  | .fl => flushOkB s
  | .wr _ => if s.chunksize ≤ s.nInBuffer then flushOkB s else true

/-- Every flush fired along the run of the operation sequence is
benign (and every step succeeds). -/
def traceOkB (s : LWState) : List LWOp → Bool
  | [] => true
  | op :: ops =>
    opOkB s op &&
      (match lwStep s op with
       | none => false
       | some s1 => traceOkB s1 ops)

/-- The raw-line stream: line 0 is the header, line `k + 1` is data row
`k`. -/
def streamLine (c : Nat) : RawLine :=
  match c with
  | 0 => .header
  | Nat.succ k => .data k

/-- Data-row lines `a, a+1, …, a+m-1`. -/
def dataSeg (a m : Nat) : List RawLine :=
  (List.range' a m).map RawLine.data

/-- The first `c` lines of the stream. -/
def linesUpTo (c : Nat) : List RawLine :=
  (List.range c).map streamLine

/-- Stream lines `c, c+1, …, c+k-1`. -/
def streamSeg (c k : Nat) : List RawLine :=
  (List.range' c k).map streamLine

/-- The row-index range carried by an emitted chunk. -/
def chunkIdx (b : LWBuf) : List Nat :=
  match b with
  | .frame c =>
    match c.idxStart with
    | some a => List.range' a c.rows.length
    | none => []
  | .lines _ => []

/-- The decoded rows carried by an emitted chunk. -/
def chunkRows (b : LWBuf) : List RawLine :=
  match b with
  | .frame c => c.rows
  | .lines ls => ls

/-- All row indices emitted downstream, in order. -/
def emittedIdx (s : LWState) : List Nat :=
  (s.emitted.map chunkIdx).flatten

/-- All decoded rows emitted downstream, in order. -/
def emittedRows (s : LWState) : List RawLine :=
  (s.emitted.map chunkRows).flatten

theorem dataSeg_length (a m : Nat) : (dataSeg a m).length = m := by
  simp [dataSeg]

theorem dataSeg_snoc (a m : Nat) :
    dataSeg a m ++ [RawLine.data (a + m)] = dataSeg a (m + 1) := by
  unfold dataSeg
  rw [List.range'_concat a m]
  simp

theorem dataSeg_glue (a m1 m2 : Nat) :
    dataSeg a m1 ++ dataSeg (a + m1) m2 = dataSeg a (m1 + m2) := by
  unfold dataSeg
  rw [← List.map_append]
  have := List.range'_append a m1 m2 1
  simp only [Nat.one_mul] at this
  rw [this, Nat.add_comm m2 m1]

theorem linesUpTo_length (c : Nat) : (linesUpTo c).length = c := by
  simp [linesUpTo]

theorem linesUpTo_cons (k : Nat) :
    linesUpTo (k + 1) = RawLine.header :: dataSeg 0 k := by
  unfold linesUpTo dataSeg
  rw [List.range_succ_eq_map]
  rw [List.map_cons, List.map_map]
  rw [← List.range_eq_range']
  rfl

theorem linesUpTo_snoc (c : Nat) :
    linesUpTo c ++ [streamLine c] = linesUpTo (c + 1) := by
  unfold linesUpTo
  rw [List.range_succ]
  simp

theorem streamSeg_cons (c k : Nat) :
    streamSeg c (k + 1) = streamLine c :: streamSeg (c + 1) k := by
  unfold streamSeg
  rw [List.range'_succ]
  rfl

theorem linesUpTo_eq_streamSeg (c : Nat) : linesUpTo c = streamSeg 0 c := by
  unfold linesUpTo streamSeg
  rw [List.range_eq_range']

/-- Run invariant, phase A: the header has not been recovered yet
(`chunk_written = 0`), nothing has been emitted, and the buffer holds
exactly the `c` stream lines written so far. -/
def lwInvA (s : LWState) (c : Nat) : Prop :=
  s.buffer = .lines (linesUpTo c) ∧ s.nInBuffer = c ∧ s.nWritten = 0 ∧
  s.chunkWritten = 0 ∧ s.headerLines = 0 ∧ s.headerKw = none ∧
  s.namesKw = false ∧ s.indexKw = none ∧ s.emitted = []

/-- Run invariant, phase B: the header has been consumed (on the first
flush), `e` data rows have been emitted as chunks whose index ranges
glue to `0, …, e-1`, and the buffer holds the next `m` data lines. -/
def lwInvB (s : LWState) (c : Nat) : Prop :=
  ∃ e m, c = 1 + e + m ∧
    s.buffer = .lines (dataSeg e m) ∧ s.nInBuffer = m ∧ s.nWritten = e + 1 ∧
    1 ≤ s.chunkWritten ∧ s.headerLines = 1 ∧ s.headerKw = some false ∧
    s.namesKw = true ∧ s.indexKw = none ∧
    emittedIdx s = List.range e ∧ emittedRows s = dataSeg 0 e

/-- Run invariant after `c` stream lines have been written. -/
def lwInv (s : LWState) (c : Nat) : Prop := lwInvA s c ∨ lwInvB s c

/-- Phase B with an empty buffer (the state right after a flush). -/
def lwInvB0 (s : LWState) (e : Nat) : Prop :=
  s.buffer = .lines [] ∧ s.nInBuffer = 0 ∧ s.nWritten = e + 1 ∧
  1 ≤ s.chunkWritten ∧ s.headerLines = 1 ∧ s.headerKw = some false ∧
  s.namesKw = true ∧ s.indexKw = none ∧
  emittedIdx s = List.range e ∧ emittedRows s = dataSeg 0 e

theorem lwInvB0_invB (s : LWState) (e : Nat) (h : lwInvB0 s e) :
    lwInvB s (e + 1) := by
  obtain ⟨h1, h2, h3, h4, h5, h6, h7, h8, h9, h10⟩ := h
  exact ⟨e, 0, by omega, h1, h2, h3, h4, h5, h6, h7, h8, h9, h10⟩

theorem flush_lines (s : LWState) (ls : List RawLine)
    (hbuf : s.buffer = .lines ls) (hne : ls ≠ []) :
    LineWriter.flush s = some (lwSuperFlush
      { (if s.chunkWritten = 0 then
          { s with namesKw := true, headerKw := some false,
                   headerLines := s.nInBuffer -
                     (if s.headerKw.isNone then ls.tail else ls).length }
         else s) with
        buffer := .frame
          { idxStart :=
              if s.indexKw.isNone then some (s.nWritten - s.headerLines)
              else none,
            rows := if s.headerKw.isNone then ls.tail else ls } }) := by
  unfold LineWriter.flush
  rw [hbuf]
  rw [if_neg (by simp [LWBuf.len]; exact hne)]

theorem dataSeg_glue0 (e m2 : Nat) :
    dataSeg 0 e ++ dataSeg e m2 = dataSeg 0 (e + m2) := by
  have := dataSeg_glue 0 e m2
  simpa using this

theorem lwInv_flush (s : LWState) (c : Nat) (hinv : lwInv s c)
    (hok : flushOkB s = true) :
    ∃ s1, LineWriter.flush s = some s1 ∧
      ((c = 0 ∧ lwInvA s1 0) ∨ (∃ e, c = e + 1 ∧ lwInvB0 s1 e)) := by
  rcases hinv with ⟨hbuf, hnin, hnw, hcw, hhl, hhk, hnk, hik, hem⟩ |
    ⟨e, m, hc, hbuf, hnin, hnw, hcw, hhl, hhk, hnk, hik, hidx, hrows⟩
  · cases c with
    | zero =>
      refine ⟨s, ?_, Or.inl ⟨rfl, hbuf, hnin, hnw, hcw, hhl, hhk, hnk, hik, hem⟩⟩
      unfold LineWriter.flush
      rw [if_pos (by rw [hbuf]; rfl)]
    | succ k =>
      have hk2 : 1 ≤ k := by
        unfold flushOkB at hok
        rw [hbuf, hcw] at hok
        simp [LWBuf.len, linesUpTo_length] at hok
        omega
      have hne : linesUpTo (k + 1) ≠ [] := by
        rw [linesUpTo_cons]
        simp
      refine ⟨_, flush_lines s (linesUpTo (k + 1)) hbuf hne,
        Or.inr ⟨k, rfl, ?_⟩⟩
      rw [linesUpTo_cons]
      simp only [hhk, hik, hcw, hnw, hhl, hnin, hem, Option.isNone_none,
        if_true, List.tail_cons, dataSeg_length, eq_self_iff_true]
      unfold lwSuperFlush
      rw [if_neg (by simp [LWBuf.len, dataSeg_length]; omega)]
      unfold lwInvB0
      refine ⟨rfl, rfl, by simp, by simp, by simp, rfl, rfl,
        ?_, ?_, ?_⟩
      · simpa using hik
      · simp [emittedIdx, chunkIdx, dataSeg_length, List.range_eq_range', hem]
      · simp [emittedRows, chunkRows, hem]
  · cases m with
    | zero =>
      refine ⟨s, ?_, Or.inr ⟨e, by omega,
        hbuf, hnin, hnw, hcw, hhl, hhk, hnk, hik, hidx, hrows⟩⟩
      unfold LineWriter.flush
      rw [if_pos (by rw [hbuf]; rfl)]
    | succ j =>
      have hne : dataSeg e (j + 1) ≠ [] := by
        intro hcontra
        have := dataSeg_length e (j + 1)
        rw [hcontra] at this
        simp at this
      have hcw0 : ¬ s.chunkWritten = 0 := by omega
      refine ⟨_, flush_lines s (dataSeg e (j + 1)) hbuf hne,
        Or.inr ⟨e + (j + 1), by omega, ?_⟩⟩
      simp only [hhk, hik, hcw, hnw, hhl, hnin, if_neg hcw0,
        Option.isNone_none, Option.isNone_some, if_false, Bool.false_eq_true]
      unfold lwSuperFlush
      rw [if_neg (by simp [LWBuf.len, dataSeg_length])]
      unfold lwInvB0
      refine ⟨rfl, rfl, by simp; omega, by simp, by simpa using hhl,
        by simpa using hhk, by simpa using hnk, by simpa using hik, ?_, ?_⟩
      · simp only [emittedIdx, List.map_append, List.flatten_append]
        have hidx2 : (List.map chunkIdx s.emitted).flatten = List.range e := hidx
        rw [hidx2]
        simp [chunkIdx, dataSeg_length, Nat.add_sub_cancel]
        rw [List.range_eq_range', List.range_eq_range']
        have := List.range'_append 0 e (j + 1) 1
        simp only [Nat.one_mul, Nat.zero_add] at this
        rw [this, Nat.add_comm (j + 1) e]
      · simp only [emittedRows, List.map_append, List.flatten_append]
        have hrows2 : (List.map chunkRows s.emitted).flatten = dataSeg 0 e := hrows
        rw [hrows2]
        simp [chunkRows]
        exact dataSeg_glue0 e (j + 1)

theorem lwInv_appendLine (s : LWState) (c : Nat) (hinv : lwInv s c) :
    lwInv { s with buffer := s.buffer.append (streamLine c),
                   nInBuffer := s.nInBuffer + 1 } (c + 1) := by
  rcases hinv with ⟨hbuf, hnin, hnw, hcw, hhl, hhk, hnk, hik, hem⟩ |
    ⟨e, m, hc, hbuf, hnin, hnw, hcw, hhl, hhk, hnk, hik, hidx, hrows⟩
  · left
    refine ⟨?_, by simp [hnin], by simpa using hnw, by simpa using hcw,
      by simpa using hhl, by simpa using hhk, by simpa using hnk,
      by simpa using hik, by simpa using hem⟩
    simp only [hbuf, LWBuf.append]
    rw [linesUpTo_snoc]
  · right
    refine ⟨e, m + 1, by omega, ?_, by simp [hnin], by simpa using hnw,
      by simpa using hcw, by simpa using hhl, by simpa using hhk,
      by simpa using hnk, by simpa using hik, by simpa using hidx,
      by simpa using hrows⟩
    simp only [hbuf, LWBuf.append]
    have hsl : streamLine c = RawLine.data (e + m) := by
      rw [show c = (e + m) + 1 from by omega]
      rfl
    rw [hsl, dataSeg_snoc]

theorem lwInv_write (s : LWState) (c : Nat) (l : RawLine)
    (hinv : lwInv s c) (hok : opOkB s (LWOp.wr l) = true)
    (hl : l = streamLine c) :
    ∃ s1, LineWriter.write s l = some s1 ∧ lwInv s1 (c + 1) := by
  subst hl
  by_cases htrig : s.chunksize ≤ s.nInBuffer
  · have hfok : flushOkB s = true := by
      unfold opOkB at hok
      rw [if_pos htrig] at hok
      exact hok
    obtain ⟨s2, hfl, hres⟩ := lwInv_flush s c hinv hfok
    have hinv2 : lwInv s2 c := by
      rcases hres with ⟨rfl, hA⟩ | ⟨e, rfl, hB⟩
      · exact Or.inl hA
      · exact Or.inr (lwInvB0_invB s2 e hB)
    have happ := lwInv_appendLine s2 c hinv2
    refine ⟨_, ?_, happ⟩
    unfold LineWriter.write
    rw [if_pos htrig, hfl]
  · have happ := lwInv_appendLine s c hinv
    refine ⟨_, ?_, happ⟩
    unfold LineWriter.write
    rw [if_neg htrig]

theorem lwRun_inv (ops : List LWOp) :
    ∀ (s : LWState) (c : Nat), lwInv s c → traceOkB s ops = true →
      writesOf ops = streamSeg c (writesOf ops).length →
      ∃ s1, lwRun s ops = some s1 ∧ lwInv s1 (c + (writesOf ops).length) := by
  induction ops with
  | nil =>
    intro s c hinv _ _
    exact ⟨s, rfl, by simpa using hinv⟩
  | cons op rest ih =>
    intro s c hinv htr hws
    unfold traceOkB at htr
    rw [Bool.and_eq_true] at htr
    obtain ⟨hop, hrest⟩ := htr
    cases op with
    | fl =>
      obtain ⟨s2, hfl, hres⟩ := lwInv_flush s c hinv hop
      have hinv2 : lwInv s2 c := by
        rcases hres with ⟨rfl, hA⟩ | ⟨e, rfl, hB⟩
        · exact Or.inl hA
        · exact Or.inr (lwInvB0_invB s2 e hB)
      have hstep : lwStep s LWOp.fl = some s2 := hfl
      rw [hstep] at hrest
      have hrest2 : traceOkB s2 rest = true := hrest
      obtain ⟨s3, hrun, hinv3⟩ := ih s2 c hinv2 hrest2 hws
      refine ⟨s3, ?_, hinv3⟩
      unfold lwRun
      rw [hstep]
      exact hrun
    | wr l =>
      have hws2 : l :: writesOf rest =
          streamLine c :: streamSeg (c + 1) (writesOf rest).length := by
        have h0 : writesOf (LWOp.wr l :: rest) = l :: writesOf rest := rfl
        rw [h0, List.length_cons, streamSeg_cons] at hws
        exact hws
      have hl1 : l = streamLine c :=
        ((List.cons.injEq _ _ _ _).mp hws2).1
      have hl2 : writesOf rest = streamSeg (c + 1) (writesOf rest).length :=
        ((List.cons.injEq _ _ _ _).mp hws2).2
      obtain ⟨s2, hwr, hinv2⟩ := lwInv_write s c l hinv hop hl1
      have hstep : lwStep s (LWOp.wr l) = some s2 := hwr
      rw [hstep] at hrest
      have hrest2 : traceOkB s2 rest = true := hrest
      obtain ⟨s3, hrun, hinv3⟩ := ih s2 (c + 1) hinv2 hrest2 hl2
      refine ⟨s3, ?_, ?_⟩
      · unfold lwRun
        rw [hstep]
        exact hrun
      · have harith : c + (writesOf (LWOp.wr l :: rest)).length =
            (c + 1) + (writesOf rest).length := by
          have h0 : writesOf (LWOp.wr l :: rest) = l :: writesOf rest := rfl
          rw [h0, List.length_cons]
          omega
        rw [harith]
        exact hinv3

theorem traceOkB_append (l2 : List LWOp) : ∀ (l1 : List LWOp) (s : LWState),
    traceOkB s (l1 ++ l2) = true →
    traceOkB s l1 = true ∧
      ∀ s1, lwRun s l1 = some s1 → traceOkB s1 l2 = true := by
  intro l1
  induction l1 with
  | nil =>
    intro s h
    refine ⟨rfl, fun s1 hs1 => ?_⟩
    injection hs1 with h1
    rw [← h1]
    exact h
  | cons op rest ih =>
    intro s h
    have h0 : (opOkB s op &&
        (match lwStep s op with
         | none => false
         | some s1 => traceOkB s1 (rest ++ l2))) = true := h
    rw [Bool.and_eq_true] at h0
    obtain ⟨hop, hm⟩ := h0
    cases hstep : lwStep s op with
    | none =>
      rw [hstep] at hm
      exact absurd hm (by simp)
    | some s2 =>
      rw [hstep] at hm
      have hm2 : traceOkB s2 (rest ++ l2) = true := hm
      obtain ⟨h1, h2⟩ := ih s2 hm2
      constructor
      · unfold traceOkB
        rw [Bool.and_eq_true]
        refine ⟨hop, ?_⟩
        rw [hstep]
        exact h1
      · intro s1 hs1
        unfold lwRun at hs1
        rw [hstep] at hs1
        exact h2 s1 hs1

/-- C1 (amended).  Feed a `LineWriter` (no explicit row-index column
requested) the raw stream of one header line followed by `R` data
lines through any interleaving of `write` and `flush` calls ending in
`close`, *provided every flush that fires before the first chunk has
been emitted finds the buffer either empty or holding at least two
lines* (the header plus at least one data line — the proviso the
degenerate header-only first flush forces).  Then the header is
consumed exactly once, on the first emitting flush: the decoded column
names become the fixed `names` option, header decoding is disabled
(`header = None`), and the recorded header-line count is 1 (buffered
lines minus decoded rows).  Every reconstructed chunk's row index is
the contiguous range starting at `n_written - header_lines`, and the
emitted chunks' index ranges concatenate to exactly `0, …, R-1` with
their decoded rows being exactly the `R` data lines in order. -/
theorem line_writer_reassembly (cs R : Nat) (ops : List LWOp)
    (hw : writesOf ops = linesUpTo (R + 1))
    (htr : traceOkB (lwInit cs) (ops ++ [LWOp.fl]) = true) :
    ∃ s1 s2, lwRun (lwInit cs) ops = some s1 ∧
      LineWriter.close s1 = some s2 ∧
      emittedIdx s2 = List.range R ∧
      emittedRows s2 = dataSeg 0 R ∧
      s2.headerLines = 1 ∧ s2.headerKw = some false ∧ s2.namesKw = true := by
  obtain ⟨htr1, htr2⟩ := traceOkB_append [LWOp.fl] ops (lwInit cs) htr
  have hinv0 : lwInv (lwInit cs) 0 :=
    Or.inl ⟨rfl, rfl, rfl, rfl, rfl, rfl, rfl, rfl, rfl⟩
  have hws : writesOf ops = streamSeg 0 (writesOf ops).length := by
    rw [hw, linesUpTo_length, ← linesUpTo_eq_streamSeg]
  obtain ⟨s1, hrun1, hinv1⟩ := lwRun_inv ops (lwInit cs) 0 hinv0 htr1 hws
  have hlen : (writesOf ops).length = R + 1 := by rw [hw, linesUpTo_length]
  have hinv1b : lwInv s1 (R + 1) := by
    rw [show R + 1 = 0 + (writesOf ops).length from by rw [hlen]; omega]
    exact hinv1
  have hfok : flushOkB s1 = true := by
    have h2 := htr2 s1 hrun1
    unfold traceOkB at h2
    rw [Bool.and_eq_true] at h2
    exact h2.1
  obtain ⟨s2, hfl, hres⟩ := lwInv_flush s1 (R + 1) hinv1b hfok
  refine ⟨s1, s2, hrun1, hfl, ?_⟩
  rcases hres with ⟨habs, _⟩ | ⟨e, he, hB⟩
  · exact absurd habs (by omega)
  · have he2 : e = R := by omega
    subst he2
    obtain ⟨_, _, _, _, hhl, hhk, hnk, _, hidx, hrows⟩ := hB
    exact ⟨hidx, hrows, hhl, hhk, hnk⟩

/-- C1 counterexample.  With buffer capacity 1 and the stream
`header, data 0` (so `R = 1`), the write of `data 0` triggers a flush
of the header-only buffer: the decoded frame has zero rows, the
superclass flush refuses it, the buffer is left holding the empty
DataFrame, and the subsequent `DataFrame.append` calls lose every data
line (pandas < 2.0; pandas ≥ 2.0 raises instead).  The run completes
with *no* chunk emitted: the concatenated row indices are `[]`, not
the contiguous `0, …, R-1` the claim requires for every write/flush
schedule. -/
theorem line_writer_reassembly_cex :
    writesOf [LWOp.wr RawLine.header, LWOp.wr (RawLine.data 0), LWOp.fl] =
      linesUpTo (1 + 1) ∧
    (lwRun (lwInit 1)
        [LWOp.wr RawLine.header, LWOp.wr (RawLine.data 0), LWOp.fl]).map
      (fun s => (emittedIdx s, s.headerLines)) = some ([], 1) ∧
    ¬ ([] : List Nat) = List.range 1 := by
  refine ⟨rfl, rfl, by decide⟩

/-- Witness for C1's amended theorem: capacity 2, stream
`header, data 0, data 1, data 2` written in order, then closed. -/
theorem line_writer_reassembly_witness :
    (writesOf [LWOp.wr RawLine.header, LWOp.wr (RawLine.data 0),
        LWOp.wr (RawLine.data 1), LWOp.wr (RawLine.data 2)] =
      linesUpTo (3 + 1) ∧
     traceOkB (lwInit 2) ([LWOp.wr RawLine.header, LWOp.wr (RawLine.data 0),
        LWOp.wr (RawLine.data 1), LWOp.wr (RawLine.data 2)] ++ [LWOp.fl]) =
      true) ∧
    (∃ s1 s2, lwRun (lwInit 2) [LWOp.wr RawLine.header, LWOp.wr (RawLine.data 0),
        LWOp.wr (RawLine.data 1), LWOp.wr (RawLine.data 2)] = some s1 ∧
      LineWriter.close s1 = some s2 ∧
      emittedIdx s2 = List.range 3 ∧
      emittedRows s2 = dataSeg 0 3 ∧
      s2.headerLines = 1 ∧ s2.headerKw = some false ∧ s2.namesKw = true) :=
  ⟨⟨rfl, rfl⟩,
   line_writer_reassembly 2 3
     [LWOp.wr RawLine.header, LWOp.wr (RawLine.data 0),
      LWOp.wr (RawLine.data 1), LWOp.wr (RawLine.data 2)] rfl rfl⟩

end Zsu
